import Mathlib

/-!
A shallow embedding of `flow/MkCert.cpp` (FoundationDB's test-certificate
factory) together with proofs about its chain-assembly, spec-building and
encoding operations.

The cryptography provider (OpenSSL) is out of scope for the source file:
key generation, X509 structure assembly and PEM armor are modelled
abstractly.  A key pair is identified by the natural number drawn from a
fresh-key counter (the `st : Nat` state threaded through the signing
operations); an X509 certificate is a record of the fields the source
sets (`version`, serial, validity offsets, public key, subject and issuer
name, extension list, and the identifier of the private key used in
`X509_sign`); PEM text is a list of abstract bytes, and the provider's
PEM read/write round-trip contract is realised by a trivially injective
writer and its matching reader.  Assertion failures (`ASSERT`, which the
specification calls `InvariantViolation`) and provider failures
(`OSSL_ASSERT`, which throws `tls_error`) are modelled with `Except`.
-/

set_option maxHeartbeats 1000000

namespace mkcert

/-- Error outcomes of the certificate factory: `invariantViolation` models an
`ASSERT` firing (a caller bug), `tlsError` models `tls_error` thrown by
`OSSL_ASSERT` at the provider boundary. -/
inductive MkCertError
  | invariantViolation
  | tlsError
deriving DecidableEq, Repr

/-- Abstract model of the X509 certificate assembled by `makeCertNative`:
exactly the fields the source sets on the fresh `X509` structure.
`pubKey` is the key-pair identifier installed by `X509_set_pubkey`;
`signedWith` is the key-pair identifier of the private key passed to
`X509_sign`. -/
structure X509Cert where
  version : Nat
  serialNumber : Int
  offsetNotBefore : Int
  offsetNotAfter : Int
  pubKey : Nat
  subjectName : List (String × String)
  issuerName : List (String × String)
  extensions : List (String × String)
  signedWith : Nat
deriving DecidableEq, Repr

/-- One abstract byte of PEM text.  The provider's PEM armor is opaque to
this file; a certificate armors to the single abstract byte `certB c` and a
private key to `keyB k`, which makes the provider's encode/decode contract
(read inverts write) hold definitionally. -/
inductive PemByte
  | certB (c : X509Cert)
  | keyB (k : Nat)
deriving DecidableEq, Repr

/-- `CertAndKeyRef`: the portable (PEM text) form of a certificate plus its
private key, as deep-copied into the caller's arena. -/
structure CertAndKeyRef where
  certPem : List PemByte
  privateKeyPem : List PemByte
deriving DecidableEq, Repr

/-- Modelled from the spec: `CertAndKeyRef::empty()` is declared in
`flow/MkCert.h`, which is not among the sources; per the data model an
absent encoded pair has both fields absent. -/
def CertAndKeyRef.empty (p : CertAndKeyRef) : Bool :=
  p.certPem.isEmpty && p.privateKeyPem.isEmpty

/-- `CertAndKeyNative`: provider-native certificate and private-key handles,
either of which may be null. -/
structure CertAndKeyNative where
  cert : Option X509Cert
  privateKey : Option Nat
deriving DecidableEq, Repr

/-- `CertAndKeyNative::valid()`: both handles set. -/
def CertAndKeyNative.valid (n : CertAndKeyNative) : Bool :=
  n.cert.isSome && n.privateKey.isSome

/-- `CertAndKeyNative::null()`: both handles null (the self-signed case). -/
def CertAndKeyNative.null (n : CertAndKeyNative) : Bool :=
  n.cert.isNone && n.privateKey.isNone

/-- `readX509CertPem`: parse PEM text into a native certificate.  In the
abstract PEM model, exactly the writer's output parses back. -/
def readX509CertPem : List PemByte → Option X509Cert
  | [PemByte.certB c] => some c
  | _ => none

/-- `readPrivateKeyPem`: parse PEM text into a native private key. -/
def readPrivateKeyPem : List PemByte → Option Nat
  | [PemByte.keyB k] => some k
  | _ => none

/-- `writeX509CertPem`: armor a native certificate as PEM text. -/
def writeX509CertPem (c : X509Cert) : List PemByte :=
  [PemByte.certB c]

/-- `writePrivateKeyPem`: armor a native private key as PEM text. -/
def writePrivateKeyPem (k : Nat) : List PemByte :=
  [PemByte.keyB k]

/-- `CertAndKeyNative::fromPem`: an empty pair decodes to the null native
pair; otherwise both components must be present (`ASSERT`) and each is
parsed by the provider (`OSSL_ASSERT` on parse failure). -/
def CertAndKeyNative.fromPem (p : CertAndKeyRef) : Except MkCertError CertAndKeyNative :=
  if p.empty then Except.ok ⟨none, none⟩
  else if !p.certPem.isEmpty && !p.privateKeyPem.isEmpty then
    match readX509CertPem p.certPem, readPrivateKeyPem p.privateKeyPem with
    | some c, some k => Except.ok ⟨some c, some k⟩
    | _, _ => Except.error MkCertError.tlsError
  else Except.error MkCertError.invariantViolation

/-- `CertAndKeyNative::toPem`: the null native pair encodes to the empty
pair; otherwise both handles must be set (`ASSERT(valid())`) and each is
armored by the provider. -/
def CertAndKeyNative.toPem (n : CertAndKeyNative) : Except MkCertError CertAndKeyRef :=
  match n.cert, n.privateKey with
  | none, none => Except.ok ⟨[], []⟩
  | some c, some k => Except.ok ⟨writeX509CertPem c, writePrivateKeyPem k⟩
  | _, _ => Except.error MkCertError.invariantViolation

/-- Modelled from the spec: `CertKind` is declared in `flow/MkCert.h`, which
is not among the sources.  It is a closed variant over roles — leaf
(`Server`, `Client`), root CA, and depth-carrying intermediate CA, per side. -/
inductive CertKind
  | Server
  | Client
  | ServerRootCA
  | ClientRootCA
  | ServerIntermediateCA (depth : Nat)
  | ClientIntermediateCA (depth : Nat)
deriving DecidableEq, Repr

/-- Modelled from the spec: `CertKind::isCA()` (declared in `flow/MkCert.h`)
holds for the root-CA and intermediate-CA roles. -/
def CertKind.isCA : CertKind → Bool
  | CertKind.ServerRootCA => true
  | CertKind.ClientRootCA => true
  | CertKind.ServerIntermediateCA _ => true
  | CertKind.ClientIntermediateCA _ => true
  | _ => false

/-- Modelled from the spec: `CertKind::isRootCA()` (declared in
`flow/MkCert.h`) holds exactly for the two root-CA roles. -/
def CertKind.isRootCA : CertKind → Bool
  | CertKind.ServerRootCA => true
  | CertKind.ClientRootCA => true
  | _ => false

/-- Modelled from the spec: `CertKind::getCommonName` (declared in
`flow/MkCert.h`) yields distinct text per role from a fixed stem,
distinguishing intermediate depth. -/
def CertKind.getCommonName (k : CertKind) (stem : String) : String :=
  match k with
  | CertKind.Server => stem ++ " Server"
  | CertKind.Client => stem ++ " Client"
  | CertKind.ServerRootCA => stem ++ " Server Root CA"
  | CertKind.ClientRootCA => stem ++ " Client Root CA"
  | CertKind.ServerIntermediateCA d => stem ++ " Server Intermediate " ++ toString d
  | CertKind.ClientIntermediateCA d => stem ++ " Client Intermediate " ++ toString d

/-- `ESide`: which side of a TLS connection a chain is generated for. -/
inductive ESide
  | Server
  | Client
deriving DecidableEq, Repr

/-- `CertSpecRef`: the declarative certificate specification consumed by the
signing operation. -/
structure CertSpecRef where
  serialNumber : Int
  offsetNotBefore : Int
  offsetNotAfter : Int
  subjectName : List (String × String)
  extensions : List (String × String)
deriving DecidableEq, Repr

/-- Modelled from the spec: `deterministicRandom()->randomInt64(min, max)`
(declared in `flow/IRandom.h`, not among the sources) draws from the
process-wide randomness source a value in `[min, max)`.  The source is
modelled as a `Nat` state. -/
def randomInt64 (lo hi : Int) (r : Nat) : Int × Nat :=
  (lo + (r : Int) % (hi - lo), r + 1)

/-- `CertSpecRef::make`: build the declarative spec for one certificate of
the given kind — random serial below `1e10`, validity from now to one year
from now, fixed subject fields plus a kind-derived common name, and the
role-determined extension list. -/
def CertSpecRef.make (kind : CertKind) (r : Nat) : CertSpecRef × Nat :=
  let serialDraw := randomInt64 0 10000000000 r
  ({ serialNumber := serialDraw.1
     offsetNotBefore := 0
     offsetNotAfter := 60 * 60 * 24 * 365
     subjectName :=
       [("countryName", "DE"),
        ("localityName", "Berlin"),
        ("organizationName", "FoundationDB"),
        ("commonName", kind.getCommonName "FDB Testing Services")]
     extensions :=
       (if kind.isCA then
          [("basicConstraints", "critical, CA:TRUE"),
           ("keyUsage", "critical, digitalSignature, keyCertSign, cRLSign")]
        else
          [("basicConstraints", "critical, CA:FALSE"),
           ("keyUsage", "critical, digitalSignature, keyEncipherment"),
           ("extendedKeyUsage", "serverAuth, clientAuth")])
       ++ [("subjectKeyIdentifier", "hash")]
       ++ (if !kind.isRootCA then [("authorityKeyIdentifier", "keyid, issuer")] else []) },
   serialDraw.2)

/-- `makeCertNative`: sign one spec.  The issuer must be fully set or fully
null (`ASSERT`); a null issuer means self-signed.  A fresh key pair is
generated (identifier `st`), the certificate carries the spec's fields,
issuer name is the issuer certificate's subject name (or the subject's own
name when self-signed), and the structure is signed with the issuer's
private key (or the fresh private key when self-signed). -/
def makeCertNative (spec : CertSpecRef) (issuer : CertAndKeyNative) (st : Nat) :
    Except MkCertError (CertAndKeyNative × Nat) :=
  match issuer.cert, issuer.privateKey with
  | some issuerCert, some issuerKey =>
    Except.ok
      (⟨some
          { version := 2
            serialNumber := spec.serialNumber
            offsetNotBefore := spec.offsetNotBefore
            offsetNotAfter := spec.offsetNotAfter
            pubKey := st
            subjectName := spec.subjectName
            issuerName := issuerCert.subjectName
            extensions := spec.extensions
            signedWith := issuerKey },
        some st⟩,
       st + 1)
  | none, none =>
    Except.ok
      (⟨some
          { version := 2
            serialNumber := spec.serialNumber
            offsetNotBefore := spec.offsetNotBefore
            offsetNotAfter := spec.offsetNotAfter
            pubKey := st
            subjectName := spec.subjectName
            issuerName := spec.subjectName
            extensions := spec.extensions
            signedWith := st },
        some st⟩,
       st + 1)
  | _, _ => Except.error MkCertError.invariantViolation

/-- `CertAndKeyRef::make`: sign one spec from a PEM-encoded issuer and
return the PEM-encoded result. -/
def CertAndKeyRef.make (spec : CertSpecRef) (issuerPem : CertAndKeyRef) (st : Nat) :
    Except MkCertError (CertAndKeyRef × Nat) :=
  match CertAndKeyNative.fromPem issuerPem with
  | Except.error e => Except.error e
  | Except.ok issuer =>
    match makeCertNative spec issuer st with
    | Except.error e => Except.error e
    | Except.ok made =>
      match made.1.toPem with
      | Except.error e => Except.error e
      | Except.ok pem => Except.ok (pem, made.2)

/-- `concatCertChain`: total the certificate-text sizes, return the empty
buffer when the total is zero, otherwise copy each entry's certificate text
in chain order into one buffer. -/
def concatCertChain (chain : List CertAndKeyRef) : List PemByte :=
  let len := chain.foldl (fun acc e => acc + e.certPem.length) 0
  if len = 0 then []
  else chain.foldl (fun acc e => acc ++ e.certPem) []

/-- The descending signing loop of `makeCertChain`: entries are produced for
indices `chainLength - 2` down to `0`, each spec signed with the native
result produced just before it (initially the root's native form).  The
recursion processes the spec list head-last, so the fresh-key counter and
the issuer chain advance exactly as in the source's loop. -/
def signChainFrom (ca : CertAndKeyNative) (st : Nat) :
    List CertSpecRef → Except MkCertError (List CertAndKeyRef × CertAndKeyNative × Nat)
  | [] => Except.ok ([], ca, st)
  | s :: rest =>
    match signChainFrom ca st rest with
    | Except.error e => Except.error e
    | Except.ok (chainR, natR, st1) =>
      match makeCertNative s natR st1 with
      | Except.error e => Except.error e
      | Except.ok (nat, st2) =>
        match nat.toPem with
        | Except.error e => Except.error e
        | Except.ok pem => Except.ok (pem :: chainR, nat, st2)

/-- `makeCertChain` (spec-list overload): reject an empty spec list
(`ASSERT_GT(specs.size(), 0)`); with no root authority, self-sign the last
spec as root and sign the rest downward; with a root authority, decode it,
deep-copy it as the final entry, and sign every spec downward from it. -/
def makeCertChain (specs : List CertSpecRef) (rootAuthority : CertAndKeyRef) (st : Nat) :
    Except MkCertError (List CertAndKeyRef × Nat) :=
  match specs with
  | [] => Except.error MkCertError.invariantViolation
  | s :: srest =>
    if rootAuthority.empty then
      match makeCertNative (srest.getLastD s) ⟨none, none⟩ st with
      | Except.error e => Except.error e
      | Except.ok (caNative, st1) =>
        match caNative.toPem with
        | Except.error e => Except.error e
        | Except.ok rootPem =>
          match signChainFrom caNative st1 ((s :: srest).dropLast) with
          | Except.error e => Except.error e
          | Except.ok (body, _, st2) => Except.ok (body ++ [rootPem], st2)
    else
      match CertAndKeyNative.fromPem rootAuthority with
      | Except.error e => Except.error e
      | Except.ok caNative =>
        match signChainFrom caNative st (s :: srest) with
        | Except.error e => Except.error e
        | Except.ok (body, _, st2) => Except.ok (body ++ [rootAuthority], st2)

/-- The kind the `makeCertChainSpec` loop selects for position `i` of a
chain of the given length: leaf at position 0, root CA at the last
position, intermediate CA (carrying its distance from the leaf) in
between. -/
def chainKind (length : Nat) (side : ESide) (i : Nat) : CertKind :=
  let isServerSide := side = ESide.Server
  if i = 0 then
    (if isServerSide then CertKind.Server else CertKind.Client)
  else if i = length - 1 then
    (if isServerSide then CertKind.ServerRootCA else CertKind.ClientRootCA)
  else
    (if isServerSide then CertKind.ServerIntermediateCA i else CertKind.ClientIntermediateCA i)

/-- The sequence of kinds the `makeCertChainSpec` loop walks through. -/
def makeChainKinds (length : Nat) (side : ESide) : List CertKind :=
  (List.range length).map (chainKind length side)

/-- Build one spec per kind, threading the randomness state left to right
as the source's loop does. -/
def makeSpecsList : List CertKind → Nat → List CertSpecRef × Nat
  | [], r => ([], r)
  | k :: ks, r =>
    let s := CertSpecRef.make k r
    let rest := makeSpecsList ks s.2
    (s.1 :: rest.1, rest.2)

/-- `makeCertChainSpec`: an empty vector for length 0, otherwise one spec
per position with the position-determined kind. -/
def makeCertChainSpec (length : Nat) (side : ESide) (r : Nat) : List CertSpecRef × Nat :=
  if length = 0 then ([], r)
  else makeSpecsList (makeChainKinds length side) r

/-- `makeCertChain` (length overload): an empty chain for length 0,
otherwise build the spec list for the side and assemble it with no external
root authority. -/
def makeCertChainOfLength (length : Nat) (side : ESide) (r st : Nat) :
    Except MkCertError (List CertAndKeyRef × Nat) :=
  if length = 0 then Except.ok ([], st)
  else
    let specs := makeCertChainSpec length side r
    makeCertChain specs.1 ⟨[], []⟩ st

/-- Entry `a` is chained to entry `b`: `a`'s certificate parses, `b`'s
certificate and private key parse, `a`'s issuer name is `b`'s subject name,
and `a` was signed with `b`'s private key. -/
def pemLinked (a b : CertAndKeyRef) : Prop :=
  ∃ ac bc bk,
    readX509CertPem a.certPem = some ac ∧
    readX509CertPem b.certPem = some bc ∧
    readPrivateKeyPem b.privateKeyPem = some bk ∧
    ac.issuerName = bc.subjectName ∧
    ac.signedWith = bk

/-- Entry `a` is self-signed: its issuer name is its own subject name and it
was signed with the private key of its own embedded key pair. -/
def pemSelfSigned (a : CertAndKeyRef) : Prop :=
  ∃ c k,
    readX509CertPem a.certPem = some c ∧
    readPrivateKeyPem a.privateKeyPem = some k ∧
    c.issuerName = c.subjectName ∧
    c.signedWith = k ∧
    c.pubKey = k

/-- Entry `e` is chained to the native pair `n`. -/
def linkedToNative (e : CertAndKeyRef) (n : CertAndKeyNative) : Prop :=
  ∃ c nc nk,
    readX509CertPem e.certPem = some c ∧
    n.cert = some nc ∧
    n.privateKey = some nk ∧
    c.issuerName = nc.subjectName ∧
    c.signedWith = nk

/-- Every adjacent pair of a chain is linked. -/
def chainPairsLinked : List CertAndKeyRef → Prop
  | [] => True
  | [_] => True
  | a :: b :: rest => pemLinked a b ∧ chainPairsLinked (b :: rest)

/-- Transcribed from the spec's role policy, for comparison with the
extension list `CertSpecRef.make` actually builds: root CAs get the CA
basic-constraints and CA key-usage plus the subject key identifier;
intermediate CAs additionally get the authority key identifier; leaves get
the non-CA basic-constraints, leaf key-usage, extended key usage, subject
key identifier and authority key identifier. -/
def specRoleExtensions (kind : CertKind) : List (String × String) :=
  if kind.isRootCA then
    [("basicConstraints", "critical, CA:TRUE"),
     ("keyUsage", "critical, digitalSignature, keyCertSign, cRLSign"),
     ("subjectKeyIdentifier", "hash")]
  else if kind.isCA then
    [("basicConstraints", "critical, CA:TRUE"),
     ("keyUsage", "critical, digitalSignature, keyCertSign, cRLSign"),
     ("subjectKeyIdentifier", "hash"),
     ("authorityKeyIdentifier", "keyid, issuer")]
  else
    [("basicConstraints", "critical, CA:FALSE"),
     ("keyUsage", "critical, digitalSignature, keyEncipherment"),
     ("extendedKeyUsage", "serverAuth, clientAuth"),
     ("subjectKeyIdentifier", "hash"),
     ("authorityKeyIdentifier", "keyid, issuer")]

/-- C3: for every kind, the spec built by `CertSpecRef.make` carries exactly
the role-determined extension list, and an authority-key-identifier
extension is present if and only if the kind is not a root CA. -/
theorem certSpec_role_extensions (kind : CertKind) (r : Nat) :
    (CertSpecRef.make kind r).1.extensions = specRoleExtensions kind ∧
    ((("authorityKeyIdentifier", "keyid, issuer")
        ∈ (CertSpecRef.make kind r).1.extensions) ↔ kind.isRootCA = false) := by
  have he : (CertSpecRef.make kind r).1.extensions = specRoleExtensions kind := by
    cases kind <;> rfl
  refine ⟨he, ?_⟩
  rw [he]
  cases kind <;> simp [specRoleExtensions, CertKind.isRootCA, CertKind.isCA]

/-- C4: signing a spec with an absent issuer yields a self-signed
certificate — issuer name equals subject name, the certificate is signed
with the private key of its own fresh key pair (identifier `st`), its
embedded public key is that same key pair, and the returned private key is
the pair's private key. -/
theorem makeCertNative_selfSigned (s : CertSpecRef) (st : Nat) :
    ∃ c, makeCertNative s ⟨none, none⟩ st = Except.ok (⟨some c, some st⟩, st + 1) ∧
      c.issuerName = c.subjectName ∧
      c.subjectName = s.subjectName ∧
      c.signedWith = st ∧
      c.pubKey = st := by
  exact ⟨_, rfl, rfl, rfl, rfl, rfl⟩

/-- C5: the Codec round-trips — encoding a valid native pair and decoding
it back yields the same pair, the null native pair encodes to the absent
encoded pair, and the absent encoded pair decodes to the null native
pair. -/
theorem pem_roundTrip :
    (∀ c k, (CertAndKeyNative.toPem ⟨some c, some k⟩).bind CertAndKeyNative.fromPem
        = Except.ok ⟨some c, some k⟩) ∧
    CertAndKeyNative.toPem ⟨none, none⟩ = Except.ok ⟨[], []⟩ ∧
    CertAndKeyNative.fromPem ⟨[], []⟩ = Except.ok ⟨none, none⟩ := by
  exact ⟨fun c k => rfl, rfl, rfl⟩

/-- C7: a partially specified issuer (exactly one of certificate and
private key present) makes the signing operation abort with the invariant
violation, and an empty spec list makes the spec-list chain assembly abort
with the invariant violation. -/
theorem incomplete_issuer_abort :
    (∀ s st c, makeCertNative s ⟨some c, none⟩ st
        = Except.error MkCertError.invariantViolation) ∧
    (∀ s st k, makeCertNative s ⟨none, some k⟩ st
        = Except.error MkCertError.invariantViolation) ∧
    (∀ root st, makeCertChain [] root st
        = Except.error MkCertError.invariantViolation) := by
  exact ⟨fun s st c => rfl, fun s st k => rfl, fun root st => rfl⟩

/-- C9: every spec built by `CertSpecRef.make` has its serial number in
`[0, 10^10)`, a not-before offset of 0 and a not-after offset of one year
in seconds. -/
theorem certSpec_serial_validity (kind : CertKind) (r : Nat) :
    0 ≤ (CertSpecRef.make kind r).1.serialNumber ∧
    (CertSpecRef.make kind r).1.serialNumber < 10000000000 ∧
    (CertSpecRef.make kind r).1.offsetNotBefore = 0 ∧
    (CertSpecRef.make kind r).1.offsetNotAfter = 31536000 := by
  have h : (CertSpecRef.make kind r).1.serialNumber = (r : Int) % 10000000000 := by
    simp [CertSpecRef.make, randomInt64]
  refine ⟨?_, ?_, rfl, rfl⟩
  · rw [h]
    exact Int.emod_nonneg _ (by decide)
  · rw [h]
    exact Int.emod_lt_of_pos _ (by decide)

/-- C10: the length-based convenience operations treat length 0 as valid —
`makeCertChainSpec 0` is the empty spec list and the length overload of
`makeCertChain` at 0 is the empty chain — while the spec-list overload
aborts with the invariant violation on an empty spec list. -/
theorem zero_length_convenience :
    (∀ side r, makeCertChainSpec 0 side r = ([], r)) ∧
    (∀ side r st, makeCertChainOfLength 0 side r st = Except.ok ([], st)) ∧
    (∀ root st, makeCertChain [] root st = Except.error MkCertError.invariantViolation) := by
  exact ⟨fun side r => rfl, fun side r st => rfl, fun root st => rfl⟩

/-- The certificate `makeCertNative` assembles for spec `s` under issuer
certificate `ic` whose private key is `ik`, with fresh key pair `st`. -/
def issuedCert (s : CertSpecRef) (ic : X509Cert) (ik st : Nat) : X509Cert :=
  { version := 2
    serialNumber := s.serialNumber
    offsetNotBefore := s.offsetNotBefore
    offsetNotAfter := s.offsetNotAfter
    pubKey := st
    subjectName := s.subjectName
    issuerName := ic.subjectName
    extensions := s.extensions
    signedWith := ik }

/-- The certificate `makeCertNative` assembles for spec `s` in the
self-signed case, with fresh key pair `st`. -/
def selfCert (s : CertSpecRef) (st : Nat) : X509Cert :=
  { version := 2
    serialNumber := s.serialNumber
    offsetNotBefore := s.offsetNotBefore
    offsetNotAfter := s.offsetNotAfter
    pubKey := st
    subjectName := s.subjectName
    issuerName := s.subjectName
    extensions := s.extensions
    signedWith := st }

theorem makeCertNative_issuer_eq (s : CertSpecRef) (ic : X509Cert) (ik st : Nat) :
    makeCertNative s ⟨some ic, some ik⟩ st
      = Except.ok (⟨some (issuedCert s ic ik st), some st⟩, st + 1) := rfl

theorem makeCertNative_self_eq (s : CertSpecRef) (st : Nat) :
    makeCertNative s ⟨none, none⟩ st
      = Except.ok (⟨some (selfCert s st), some st⟩, st + 1) := rfl

theorem toPem_some_eq (c : X509Cert) (k : Nat) :
    CertAndKeyNative.toPem ⟨some c, some k⟩
      = Except.ok ⟨[PemByte.certB c], [PemByte.keyB k]⟩ := rfl

theorem readX509CertPem_some (l : List PemByte) (c : X509Cert)
    (h : readX509CertPem l = some c) : l = [PemByte.certB c] := by
  match l with
  | [] => exact absurd h (by simp [readX509CertPem])
  | [PemByte.certB x] =>
    simp [readX509CertPem] at h
    rw [h]
  | [PemByte.keyB k] => exact absurd h (by simp [readX509CertPem])
  | a :: b :: t => exact absurd h (by simp [readX509CertPem])

theorem readPrivateKeyPem_some (l : List PemByte) (k : Nat)
    (h : readPrivateKeyPem l = some k) : l = [PemByte.keyB k] := by
  match l with
  | [] => exact absurd h (by simp [readPrivateKeyPem])
  | [PemByte.keyB x] =>
    simp [readPrivateKeyPem] at h
    rw [h]
  | [PemByte.certB c] => exact absurd h (by simp [readPrivateKeyPem])
  | a :: b :: t => exact absurd h (by simp [readPrivateKeyPem])

theorem fromPem_ok (p : CertAndKeyRef) (n : CertAndKeyNative)
    (hne : p.empty = false) (h : CertAndKeyNative.fromPem p = Except.ok n) :
    ∃ c k, n = CertAndKeyNative.mk (some c) (some k)
      ∧ p = CertAndKeyRef.mk [PemByte.certB c] [PemByte.keyB k] := by
  unfold CertAndKeyNative.fromPem at h
  rw [hne] at h
  simp only [Bool.false_eq_true, if_false] at h
  split at h
  · split at h
    · rename_i c k hrc hrk
      refine ⟨c, k, ?_, ?_⟩
      · cases h
        rfl
      · have h1 := readX509CertPem_some _ _ hrc
        have h2 := readPrivateKeyPem_some _ _ hrk
        cases p
        simp_all
    · cases h
  · cases h

/-- The invariant of the descending signing loop: starting from the valid
native issuer `⟨some cc, some ck⟩`, the loop succeeds, produces one chain
entry per spec, every adjacent pair of the produced entries followed by the
issuer's own encoded form is linked, and the head entry (when any) is the
certificate built from the head spec. -/
theorem signChainFrom_ok (cc : X509Cert) (ck : Nat) (specs : List CertSpecRef) :
    ∀ st, ∃ chain nat st2,
      signChainFrom ⟨some cc, some ck⟩ st specs = Except.ok (chain, nat, st2) ∧
      chain.length = specs.length ∧
      chainPairsLinked (chain ++ [⟨[PemByte.certB cc], [PemByte.keyB ck]⟩]) ∧
      ((specs = [] ∧ chain = [] ∧ nat = CertAndKeyNative.mk (some cc) (some ck) ∧ st2 = st) ∨
       (∃ s srest c nk rest2,
          specs = s :: srest ∧
          chain = CertAndKeyRef.mk [PemByte.certB c] [PemByte.keyB nk] :: rest2 ∧
          nat = CertAndKeyNative.mk (some c) (some nk) ∧
          c.subjectName = s.subjectName ∧
          c.serialNumber = s.serialNumber)) := by
  induction specs with
  | nil =>
    intro st
    exact ⟨[], ⟨some cc, some ck⟩, st, rfl, rfl, trivial, Or.inl ⟨rfl, rfl, rfl, rfl⟩⟩
  | cons s rest ih =>
    intro st
    obtain ⟨chainR, natR, st1, heq, hlen, hlink, hshape⟩ := ih st
    obtain ⟨nc, nk0, hnat, hhead⟩ :
        ∃ nc nk0, natR = CertAndKeyNative.mk (some nc) (some nk0) ∧
          (chainR ++ [CertAndKeyRef.mk [PemByte.certB cc] [PemByte.keyB ck]]).head?
            = some (CertAndKeyRef.mk [PemByte.certB nc] [PemByte.keyB nk0]) := by
      rcases hshape with ⟨_, hc, hn, _⟩ | ⟨s1, sr1, c1, k1, r2, _, hc, hn, _, _⟩
      · exact ⟨cc, ck, hn, by rw [hc]; rfl⟩
      · exact ⟨c1, k1, hn, by rw [hc]; rfl⟩
    have hstep : signChainFrom ⟨some cc, some ck⟩ st (s :: rest) =
        Except.ok
          (CertAndKeyRef.mk [PemByte.certB (issuedCert s nc nk0 st1)] [PemByte.keyB st1] :: chainR,
           CertAndKeyNative.mk (some (issuedCert s nc nk0 st1)) (some st1), st1 + 1) := by
      simp only [signChainFrom]
      rw [heq, hnat]
      rfl
    obtain ⟨tl, htl⟩ :
        ∃ tl, chainR ++ [CertAndKeyRef.mk [PemByte.certB cc] [PemByte.keyB ck]]
          = CertAndKeyRef.mk [PemByte.certB nc] [PemByte.keyB nk0] :: tl := by
      cases hc2 : chainR ++ [CertAndKeyRef.mk [PemByte.certB cc] [PemByte.keyB ck]] with
      | nil => rw [hc2] at hhead; cases hhead
      | cons a t =>
        rw [hc2] at hhead
        simp only [List.head?_cons, Option.some.injEq] at hhead
        exact ⟨t, by rw [hhead]⟩
    refine ⟨_, _, _, hstep, by simp [hlen], ?_,
      Or.inr ⟨s, rest, issuedCert s nc nk0 st1, st1, chainR, rfl, rfl, rfl, rfl, rfl⟩⟩
    rw [List.cons_append, htl]
    exact ⟨⟨issuedCert s nc nk0 st1, nc, nk0, rfl, rfl, rfl, rfl, rfl⟩, htl ▸ hlink⟩

theorem chainPairsLinked_getD :
    ∀ (l : List CertAndKeyRef), chainPairsLinked l →
      ∀ i, i + 1 < l.length →
        pemLinked (l.getD i ⟨[], []⟩) (l.getD (i + 1) ⟨[], []⟩) := by
  intro l
  induction l with
  | nil =>
    intro _ i h
    simp at h
  | cons a t ih =>
    intro hp i h
    cases t with
    | nil => simp at h
    | cons b t2 =>
      match i with
      | 0 => exact hp.1
      | Nat.succ j =>
        have hj : j + 1 < (b :: t2).length := by
          simpa using h
        have := ih hp.2 j hj
        simpa using this

/-- C1: in every chain `makeCertChain` returns, each entry is linked to the
next — its issuer name is the next entry's subject name and it was signed
with the next entry's private key — and when no external root authority was
supplied the final entry is self-signed. -/
theorem makeCertChain_linkage (specs : List CertSpecRef) (root : CertAndKeyRef)
    (st : Nat) (chain : List CertAndKeyRef) (st2 : Nat)
    (hok : makeCertChain specs root st = Except.ok (chain, st2))
    (hlen : 2 ≤ chain.length) :
    (∀ i, i + 1 < chain.length →
       pemLinked (chain.getD i ⟨[], []⟩) (chain.getD (i + 1) ⟨[], []⟩)) ∧
    (root.empty = true → ∃ lastE, chain.getLast? = some lastE ∧ pemSelfSigned lastE) := by
  cases specs with
  | nil => cases hok
  | cons s srest =>
    by_cases hre : root.empty = true
    · obtain ⟨body, nat, st3, heq, hblen, hblink, hbshape⟩ :=
        signChainFrom_ok (selfCert (srest.getLastD s) st) st ((s :: srest).dropLast) (st + 1)
      have h1 : makeCertChain (s :: srest) root st =
          match signChainFrom ⟨some (selfCert (srest.getLastD s) st), some st⟩ (st + 1)
              ((s :: srest).dropLast) with
          | Except.error e => Except.error e
          | Except.ok (body2, _, st4) =>
            Except.ok (body2 ++
              [CertAndKeyRef.mk [PemByte.certB (selfCert (srest.getLastD s) st)]
                 [PemByte.keyB st]], st4) := by
        simp only [makeCertChain]
        rw [if_pos hre]
        rfl
      have hcomp : makeCertChain (s :: srest) root st =
          Except.ok (body ++
            [CertAndKeyRef.mk [PemByte.certB (selfCert (srest.getLastD s) st)]
               [PemByte.keyB st]], st3) := by
        rw [h1, heq]
      rw [hcomp] at hok
      simp only [Except.ok.injEq, Prod.mk.injEq] at hok
      obtain ⟨hchain, hst⟩ := hok
      rw [← hchain]
      refine ⟨chainPairsLinked_getD _ hblink, fun _ => ?_⟩
      refine ⟨_, List.getLast?_concat _, ?_⟩
      exact ⟨selfCert (srest.getLastD s) st, st, rfl, rfl, rfl, rfl, rfl⟩
    · have hre2 : root.empty = false := by
        simpa using hre
      cases hfp : CertAndKeyNative.fromPem root with
      | error e =>
        simp only [makeCertChain] at hok
        rw [if_neg hre, hfp] at hok
        cases hok
      | ok natv =>
        obtain ⟨c, k, hn, hp⟩ := fromPem_ok root natv hre2 hfp
        obtain ⟨body, nat, st3, heq, hblen, hblink, hbshape⟩ :=
          signChainFrom_ok c k (s :: srest) st
        have h1 : makeCertChain (s :: srest) root st =
            match signChainFrom ⟨some c, some k⟩ st (s :: srest) with
            | Except.error e => Except.error e
            | Except.ok (body2, _, st4) => Except.ok (body2 ++ [root], st4) := by
          simp only [makeCertChain]
          rw [if_neg hre, hfp, hn]
        have hcomp : makeCertChain (s :: srest) root st = Except.ok (body ++ [root], st3) := by
          rw [h1, heq]
        rw [hcomp] at hok
        simp only [Except.ok.injEq, Prod.mk.injEq] at hok
        obtain ⟨hchain, hst⟩ := hok
        rw [← hchain]
        refine ⟨chainPairsLinked_getD _ (hp ▸ hblink), fun hc => ?_⟩
        rw [hre2] at hc
        cases hc

/-- C2: structure of the assembled chain — with no root authority the chain
has one entry per spec and its final entry is the self-signed root built
from the last spec; with a root authority the chain has one extra entry,
that final entry is byte-identical to the supplied root, and the entry
adjacent to it was signed with the decoded root's private key; in both
cases entry 0 is built from the first spec. -/
theorem makeCertChain_structure (specs : List CertSpecRef) (root : CertAndKeyRef)
    (st : Nat) (chain : List CertAndKeyRef) (st2 : Nat)
    (hok : makeCertChain specs root st = Except.ok (chain, st2))
    (hne : specs ≠ []) :
    (root.empty = true → chain.length = specs.length ∧
       (∃ lastE, chain.getLast? = some lastE ∧
          ∃ lc k, readX509CertPem lastE.certPem = some lc ∧
            readPrivateKeyPem lastE.privateKeyPem = some k ∧
            lc.subjectName = (specs.getLastD ⟨0, 0, 0, [], []⟩).subjectName ∧
            lc.serialNumber = (specs.getLastD ⟨0, 0, 0, [], []⟩).serialNumber ∧
            lc.issuerName = lc.subjectName ∧
            lc.signedWith = k)) ∧
    (root.empty = false → chain.length = specs.length + 1 ∧
       chain.getLast? = some root ∧
       (∃ rc rk, readX509CertPem root.certPem = some rc ∧
          readPrivateKeyPem root.privateKeyPem = some rk ∧
          ∃ ac, readX509CertPem ((chain.getD (specs.length - 1) ⟨[], []⟩).certPem) = some ac ∧
            ac.issuerName = rc.subjectName ∧
            ac.signedWith = rk)) ∧
    (∃ c0, readX509CertPem ((chain.getD 0 ⟨[], []⟩).certPem) = some c0 ∧
       c0.subjectName = (specs.getD 0 ⟨0, 0, 0, [], []⟩).subjectName ∧
       c0.serialNumber = (specs.getD 0 ⟨0, 0, 0, [], []⟩).serialNumber) := by
  cases specs with
  | nil => exact absurd rfl hne
  | cons s srest =>
    by_cases hre : root.empty = true
    · obtain ⟨body, nat, st3, heq, hblen, hblink, hbshape⟩ :=
        signChainFrom_ok (selfCert (srest.getLastD s) st) st ((s :: srest).dropLast) (st + 1)
      have h1 : makeCertChain (s :: srest) root st =
          match signChainFrom ⟨some (selfCert (srest.getLastD s) st), some st⟩ (st + 1)
              ((s :: srest).dropLast) with
          | Except.error e => Except.error e
          | Except.ok (body2, _, st4) =>
            Except.ok (body2 ++
              [CertAndKeyRef.mk [PemByte.certB (selfCert (srest.getLastD s) st)]
                 [PemByte.keyB st]], st4) := by
        simp only [makeCertChain]
        rw [if_pos hre]
        rfl
      have hcomp : makeCertChain (s :: srest) root st =
          Except.ok (body ++
            [CertAndKeyRef.mk [PemByte.certB (selfCert (srest.getLastD s) st)]
               [PemByte.keyB st]], st3) := by
        rw [h1, heq]
      rw [hcomp] at hok
      simp only [Except.ok.injEq, Prod.mk.injEq] at hok
      obtain ⟨hchain, hst⟩ := hok
      rw [← hchain]
      have hLD : (s :: srest).getLastD (CertSpecRef.mk 0 0 0 [] []) = srest.getLastD s :=
        List.getLastD_cons _ _ _
      refine ⟨fun _ => ⟨?_, ?_⟩, ?_, ?_⟩
      · rw [List.length_append, hblen, List.length_dropLast]
        simp
      · refine ⟨_, List.getLast?_concat _,
          selfCert (srest.getLastD s) st, st, rfl, rfl, ?_, ?_, rfl, rfl⟩
        · rw [hLD]
          rfl
        · rw [hLD]
          rfl
      · intro hc
        rw [hre] at hc
        cases hc
      · cases srest with
        | nil =>
          rcases hbshape with ⟨_, hb, _, _⟩ | ⟨s1, sr1, c1, k1, r2, hd, _, _, _, _⟩
          · rw [hb]
            exact ⟨selfCert s st, rfl, rfl, rfl⟩
          · cases hd
        | cons s2 sr2 =>
          rcases hbshape with ⟨hd, _, _, _⟩ | ⟨s1, sr1, c1, k1, r2, hd, hb, _, hsub, hser⟩
          · rw [List.dropLast_cons₂] at hd
            cases hd
          · rw [List.dropLast_cons₂] at hd
            injection hd with ha hb2
            rw [hb]
            refine ⟨c1, rfl, ?_, ?_⟩
            · rw [hsub, ← ha]
              rfl
            · rw [hser, ← ha]
              rfl
    · have hre2 : root.empty = false := by
        simpa using hre
      cases hfp : CertAndKeyNative.fromPem root with
      | error e =>
        simp only [makeCertChain] at hok
        rw [if_neg hre, hfp] at hok
        cases hok
      | ok natv =>
        obtain ⟨c, k, hn, hp⟩ := fromPem_ok root natv hre2 hfp
        obtain ⟨body, nat, st3, heq, hblen, hblink, hbshape⟩ :=
          signChainFrom_ok c k (s :: srest) st
        have h1 : makeCertChain (s :: srest) root st =
            match signChainFrom ⟨some c, some k⟩ st (s :: srest) with
            | Except.error e => Except.error e
            | Except.ok (body2, _, st4) => Except.ok (body2 ++ [root], st4) := by
          simp only [makeCertChain]
          rw [if_neg hre, hfp, hn]
        have hcomp : makeCertChain (s :: srest) root st = Except.ok (body ++ [root], st3) := by
          rw [h1, heq]
        rw [hcomp] at hok
        simp only [Except.ok.injEq, Prod.mk.injEq] at hok
        obtain ⟨hchain, hst⟩ := hok
        rw [← hchain]
        have hlenb : body.length = srest.length + 1 := by
          rw [hblen]
          rfl
        refine ⟨?_, fun _ => ⟨?_, ?_, ?_⟩, ?_⟩
        · intro hc
          rw [hre2] at hc
          cases hc
        · rw [List.length_append, hlenb]
          rfl
        · exact List.getLast?_concat _
        · have hlink := chainPairsLinked_getD (body ++ [root]) (hp ▸ hblink)
            ((s :: srest).length - 1)
            (by rw [List.length_append, hlenb]; simp)
          have hidx : (body ++ [root]).getD ((s :: srest).length - 1 + 1) ⟨[], []⟩ = root := by
            rw [List.getD_append_right _ _ _ _ (by rw [hlenb]; simp)]
            rw [hlenb]
            simp
          rw [hidx] at hlink
          obtain ⟨ac, bc, bk, hac, hbc, hbk, hiss, hsig⟩ := hlink
          exact ⟨bc, bk, hbc, hbk, ac, hac, hiss, hsig⟩
        · rcases hbshape with ⟨hd, _, _, _⟩ | ⟨s1, sr1, c1, k1, r2, hd, hb, _, hsub, hser⟩
          · cases hd
          · injection hd with ha hb2
            rw [hb]
            refine ⟨c1, rfl, ?_, ?_⟩
            · rw [hsub, ← ha]
              rfl
            · rw [hser, ← ha]
              rfl

theorem foldl_append_certPem (l : List CertAndKeyRef) (acc : List PemByte) :
    l.foldl (fun a e => a ++ e.certPem) acc = acc ++ (l.map (fun e => e.certPem)).flatten := by
  induction l generalizing acc with
  | nil => simp
  | cons x xs ih => simp [List.foldl_cons, ih]

theorem foldl_add_certPem_length (l : List CertAndKeyRef) (n : Nat) :
    l.foldl (fun a e => a + e.certPem.length) n = n + (l.map (fun e => e.certPem.length)).sum := by
  induction l generalizing n with
  | nil => simp
  | cons x xs ih =>
    simp [List.foldl_cons, ih]
    omega

theorem flatten_certPem_length (l : List CertAndKeyRef) :
    ((l.map (fun e => e.certPem)).flatten).length = (l.map (fun e => e.certPem.length)).sum := by
  induction l with
  | nil => simp
  | cons x xs ih => simp [ih]

/-- C6: `concatCertChain` is exactly the byte-for-byte concatenation of the
entries' certificate texts in chain order, its length is the sum of the
entries' certificate-text lengths, and the empty chain concatenates to the
empty buffer. -/
theorem concatCertChain_is_concat :
    (∀ chain, concatCertChain chain = (chain.map (fun e => e.certPem)).flatten ∧
      (concatCertChain chain).length = (chain.map (fun e => e.certPem.length)).sum) ∧
    concatCertChain [] = [] := by
  have core : ∀ chain, concatCertChain chain = (chain.map (fun e => e.certPem)).flatten := by
    intro chain
    unfold concatCertChain
    by_cases h : chain.foldl (fun a e => a + e.certPem.length) 0 = 0
    · rw [if_pos h]
      rw [foldl_add_certPem_length] at h
      have h0 : (chain.map (fun e => e.certPem.length)).sum = 0 := by omega
      have hlen : ((chain.map (fun e => e.certPem)).flatten).length = 0 := by
        rw [flatten_certPem_length, h0]
      exact (List.length_eq_zero.mp hlen).symm
    · rw [if_neg h]
      simpa using foldl_append_certPem chain []
  refine ⟨fun chain => ⟨core chain, ?_⟩, core []⟩
  rw [core chain, flatten_certPem_length]

theorem makeChainKinds_length (n : Nat) (side : ESide) :
    (makeChainKinds n side).length = n := by
  simp [makeChainKinds]

theorem makeChainKinds_getD (n : Nat) (side : ESide) (i : Nat) (h : i < n) :
    (makeChainKinds n side).getD i CertKind.Server = chainKind n side i := by
  simp [makeChainKinds, List.getD_eq_getElem?_getD, List.getElem?_map, List.getElem?_range h]

theorem makeSpecsList_length (ks : List CertKind) (r : Nat) :
    (makeSpecsList ks r).1.length = ks.length := by
  induction ks generalizing r with
  | nil => rfl
  | cons k t ih => simp [makeSpecsList, ih]

/-- C8 (amended to chains of length at least 2): `makeCertChainSpec` builds
one spec per position from the position-determined kind; position 0 is the
side's leaf kind, the last position is the side's root-CA kind, and every
interior position `i` is the side's intermediate-CA kind carrying depth `i`;
in particular the kinds for a 3-entry server chain are
`[Server, ServerIntermediateCA 1, ServerRootCA]`. -/
theorem makeCertChainSpec_kinds (n : Nat) (side : ESide) (r : Nat) (h : 2 ≤ n) :
    (makeCertChainSpec n side r).1.length = n ∧
    (makeCertChainSpec n side r).1 = (makeSpecsList (makeChainKinds n side) r).1 ∧
    (makeChainKinds n side).length = n ∧
    (makeChainKinds n side).getD 0 CertKind.Server
      = (if side = ESide.Server then CertKind.Server else CertKind.Client) ∧
    (makeChainKinds n side).getD (n - 1) CertKind.Server
      = (if side = ESide.Server then CertKind.ServerRootCA else CertKind.ClientRootCA) ∧
    (∀ i, 0 < i → i < n - 1 →
       (makeChainKinds n side).getD i CertKind.Server
         = (if side = ESide.Server then CertKind.ServerIntermediateCA i
            else CertKind.ClientIntermediateCA i)) ∧
    makeChainKinds 3 ESide.Server
      = [CertKind.Server, CertKind.ServerIntermediateCA 1, CertKind.ServerRootCA] := by
  have hn0 : n ≠ 0 := by omega
  have hspec : makeCertChainSpec n side r = makeSpecsList (makeChainKinds n side) r := by
    rw [makeCertChainSpec, if_neg hn0]
  refine ⟨?_, by rw [hspec], makeChainKinds_length n side, ?_, ?_, ?_, by decide⟩
  · rw [hspec, makeSpecsList_length, makeChainKinds_length]
  · rw [makeChainKinds_getD n side 0 (by omega)]
    simp [chainKind]
  · rw [makeChainKinds_getD n side (n - 1) (by omega)]
    have h1 : n - 1 ≠ 0 := by omega
    simp [chainKind, h1]
  · intro i hi0 hi1
    rw [makeChainKinds_getD n side i (by omega)]
    have h1 : i ≠ 0 := by omega
    have h2 : i ≠ n - 1 := by omega
    simp [chainKind, h1, h2]

/-- C8, counterexample for length 1: the single spec built for a 1-entry
chain carries the leaf kind, not the root-CA kind, so the claim's "the last
position is the root CA kind" fails at length 1. -/
theorem makeCertChainSpec_kinds_cex :
    makeChainKinds 1 ESide.Server = [CertKind.Server] ∧
    CertKind.Server ≠ CertKind.ServerRootCA ∧
    (makeCertChainSpec 1 ESide.Server 0).1 = [(CertSpecRef.make CertKind.Server 0).1] ∧
    (CertSpecRef.make CertKind.Server 0).1 ≠ (CertSpecRef.make CertKind.ServerRootCA 0).1 := by
  exact ⟨by decide, by decide, rfl, by decide⟩

theorem makeCertChainSpec_kinds_witness :
    (2 ≤ 3) ∧
    ((makeCertChainSpec 3 ESide.Server 0).1.length = 3 ∧
     (makeCertChainSpec 3 ESide.Server 0).1 = (makeSpecsList (makeChainKinds 3 ESide.Server) 0).1 ∧
     (makeChainKinds 3 ESide.Server).length = 3 ∧
     (makeChainKinds 3 ESide.Server).getD 0 CertKind.Server
       = (if ESide.Server = ESide.Server then CertKind.Server else CertKind.Client) ∧
     (makeChainKinds 3 ESide.Server).getD (3 - 1) CertKind.Server
       = (if ESide.Server = ESide.Server then CertKind.ServerRootCA else CertKind.ClientRootCA) ∧
     (∀ i, 0 < i → i < 3 - 1 →
        (makeChainKinds 3 ESide.Server).getD i CertKind.Server
          = (if ESide.Server = ESide.Server then CertKind.ServerIntermediateCA i
             else CertKind.ClientIntermediateCA i)) ∧
     makeChainKinds 3 ESide.Server
       = [CertKind.Server, CertKind.ServerIntermediateCA 1, CertKind.ServerRootCA]) :=
  ⟨by decide, makeCertChainSpec_kinds 3 ESide.Server 0 (by decide)⟩

/-- A concrete leaf spec used to exercise the chain-assembly theorems. -/
def demoLeafSpec : CertSpecRef := (CertSpecRef.make CertKind.Server 0).1

/-- A concrete root-CA spec used to exercise the chain-assembly theorems. -/
def demoRootSpec : CertSpecRef := (CertSpecRef.make CertKind.ServerRootCA 1).1

def demoSpecs : List CertSpecRef := [demoLeafSpec, demoRootSpec]

def demoChain : List CertAndKeyRef :=
  match makeCertChain demoSpecs ⟨[], []⟩ 0 with
  | Except.ok res => res.1
  | Except.error _ => []

def demoStateAfter : Nat :=
  match makeCertChain demoSpecs ⟨[], []⟩ 0 with
  | Except.ok res => res.2
  | Except.error _ => 0

theorem makeCertChain_linkage_witness :
    (makeCertChain demoSpecs ⟨[], []⟩ 0 = Except.ok (demoChain, demoStateAfter) ∧
     2 ≤ demoChain.length) ∧
    ((∀ i, i + 1 < demoChain.length →
        pemLinked (demoChain.getD i ⟨[], []⟩) (demoChain.getD (i + 1) ⟨[], []⟩)) ∧
     (CertAndKeyRef.empty ⟨[], []⟩ = true →
        ∃ lastE, demoChain.getLast? = some lastE ∧ pemSelfSigned lastE)) :=
  ⟨⟨rfl, by decide⟩,
   makeCertChain_linkage demoSpecs ⟨[], []⟩ 0 demoChain demoStateAfter rfl (by decide)⟩

/-- A concrete externally produced root certificate. -/
def demoRootCert : X509Cert :=
  { version := 2
    serialNumber := 5
    offsetNotBefore := 0
    offsetNotAfter := 31536000
    pubKey := 7
    subjectName := [("commonName", "Demo Root")]
    issuerName := [("commonName", "Demo Root")]
    extensions := []
    signedWith := 7 }

def demoRootPem : CertAndKeyRef := ⟨[PemByte.certB demoRootCert], [PemByte.keyB 7]⟩

def demoChain2 : List CertAndKeyRef :=
  match makeCertChain [demoLeafSpec] demoRootPem 0 with
  | Except.ok res => res.1
  | Except.error _ => []

def demoState2 : Nat :=
  match makeCertChain [demoLeafSpec] demoRootPem 0 with
  | Except.ok res => res.2
  | Except.error _ => 0

theorem makeCertChain_structure_witness :
    (makeCertChain [demoLeafSpec] demoRootPem 0 = Except.ok (demoChain2, demoState2) ∧
     [demoLeafSpec] ≠ ([] : List CertSpecRef)) ∧
    ((demoRootPem.empty = true → demoChain2.length = [demoLeafSpec].length ∧
        (∃ lastE, demoChain2.getLast? = some lastE ∧
           ∃ lc k, readX509CertPem lastE.certPem = some lc ∧
             readPrivateKeyPem lastE.privateKeyPem = some k ∧
             lc.subjectName = ([demoLeafSpec].getLastD ⟨0, 0, 0, [], []⟩).subjectName ∧
             lc.serialNumber = ([demoLeafSpec].getLastD ⟨0, 0, 0, [], []⟩).serialNumber ∧
             lc.issuerName = lc.subjectName ∧
             lc.signedWith = k)) ∧
     (demoRootPem.empty = false → demoChain2.length = [demoLeafSpec].length + 1 ∧
        demoChain2.getLast? = some demoRootPem ∧
        (∃ rc rk, readX509CertPem demoRootPem.certPem = some rc ∧
           readPrivateKeyPem demoRootPem.privateKeyPem = some rk ∧
           ∃ ac, readX509CertPem
               ((demoChain2.getD ([demoLeafSpec].length - 1) ⟨[], []⟩).certPem) = some ac ∧
             ac.issuerName = rc.subjectName ∧
             ac.signedWith = rk)) ∧
     (∃ c0, readX509CertPem ((demoChain2.getD 0 ⟨[], []⟩).certPem) = some c0 ∧
        c0.subjectName = ([demoLeafSpec].getD 0 ⟨0, 0, 0, [], []⟩).subjectName ∧
        c0.serialNumber = ([demoLeafSpec].getD 0 ⟨0, 0, 0, [], []⟩).serialNumber)) :=
  ⟨⟨rfl, by decide⟩,
   makeCertChain_structure [demoLeafSpec] demoRootPem 0 demoChain2 demoState2 rfl (by decide)⟩

end mkcert
